import Mathlib

/-!
Verification development for the lexicon evolution engine in `src/server.js`.

The engine is embedded shallowly: JS numbers are modelled as exact rationals
(`ℚ`), the process-wide `Math.random()` source as an explicit stream of
rationals (`RandSrc`), JS objects with string keys as insertion-ordered
association lists, and the wall clock (`new Date().toISOString()`) as an
explicit `String` input. The unbounded fresh-word retry loop in the birth
step is modelled with an explicit fuel parameter, so `evolveStep` returns
`none` exactly when the source's `while` loop would not have terminated
within that fuel.
-/

attribute [local semireducible] Rat.add Rat.mul Rat.sub Rat.inv

/-- Stream of uniform draws in `[0,1)`; each `Math.random()` call consumes
the next element. -/
abbrev RandSrc := ℕ → ℚ

/-- The stream after one draw has been consumed. -/
def rtail (ρ : RandSrc) : RandSrc := fun n => ρ (n + 1)

/-- `CONSONANTS` from the source. -/
def CONSONANTS : List String := ["k", "n", "t", "s", "m", "r", "h", "p", "l", "w", "v", "z"]

/-- `VOWELS` from the source. -/
def VOWELS : List String := ["a", "i", "u", "e", "o"]

/-- `C_WEIGHTS` from the source. -/
def C_WEIGHTS : List ℚ := [12, 15, 10, 8, 12, 8, 6, 5, 7, 4, 3, 2]

/-- `V_WEIGHTS` from the source. -/
def V_WEIGHTS : List ℚ := [20, 15, 10, 12, 8]

/-- `SOUND_SHIFTS` substitution table from the source. -/
def SOUND_SHIFTS : List (String × List String) :=
  [("k", ["g", "h"]), ("t", ["d", "s"]), ("p", ["b", "f"]),
   ("s", ["z", "sh"]), ("h", ["", "w"]), ("n", ["m", "ng"]),
   ("r", ["l", ""])]

/-- `CONCEPTS` catalog from the source. -/
def CONCEPTS : List (String × List String) :=
  [("natural", ["water", "fire", "earth", "wind", "stone", "tree", "river", "mountain",
                "sun", "moon", "star", "rain", "snow", "flower", "seed", "sky", "ocean", "cloud"]),
   ("abstract", ["time", "space", "change", "pattern", "boundary", "flow", "balance",
                 "emergence", "connection", "threshold", "cycle", "wave", "order", "chaos"]),
   ("quality", ["big", "small", "fast", "slow", "bright", "dark", "warm", "cold",
                "old", "new", "near", "far", "deep", "high", "soft", "hard"]),
   ("action", ["move", "grow", "break", "join", "give", "take", "make", "find",
               "hold", "release", "begin", "end", "turn", "fall", "rise", "flow"]),
   ("relation", ["with", "from", "toward", "through", "between", "within", "beyond", "around"]),
   ("being", ["self", "other", "many", "one", "all", "none", "part", "whole"])]

/-- `ALL_CONCEPTS`: concepts flattened in catalog order. -/
def ALL_CONCEPTS : List String := CONCEPTS.foldr (fun p acc => p.2 ++ acc) []

/-- `CONCEPT_CATS` lookup.  The source builds a JS object in catalog order, so
a concept listed under several categories gets the LAST category written
(relevant for "flow", listed under both abstract and action); hence the
reverse-order search. -/
def CONCEPT_CATS (c : String) : String :=
  (((CONCEPTS.reverse).find? (fun p => p.2.contains c)).map Prod.fst).getD ""

/-- Loop of `weightedChoice`: walk items accumulating `cum += weights[i]`,
returning the first item with `r <= cum`. -/
def wcLoop {α : Type} (r : ℚ) : List α → List ℚ → ℚ → Option α
  | [], _, _ => none
  | x :: xs, w :: ws, cum => if r ≤ cum + w then some x else wcLoop r xs ws (cum + w)
  | _ :: _, [], _ => none

/-- `weightedChoice(items, weights)`: draw `r` uniform in `[0, sum weights)`
and return the first item whose cumulative weight reaches `r`; the last item
is the fallback. -/
def weightedChoice {α : Type} [Inhabited α] (items : List α) (weights : List ℚ) (u : ℚ) : α :=
  let total := weights.foldl (· + ·) 0
  let r := u * total
  match wcLoop r items weights 0 with
  | some x => x
  | none => (items.getLast?).getD default

/-- `l[Math.floor(u * l.length)]` for a string list. -/
def listIdx (l : List String) (u : ℚ) : String :=
  l.getD (Int.toNat ⌊u * (l.length : ℚ)⌋) ""

/-- `genSyllable()`: `onset? + nucleus + coda?`. -/
def genSyllable (ρ : RandSrc) : String × RandSrc :=
  let u := ρ 0
  let ρ := rtail ρ
  let op := if 1/5 < u then (weightedChoice CONSONANTS C_WEIGHTS (ρ 0), rtail ρ) else ("", ρ)
  let onset := op.1
  let ρ := op.2
  let nucleus := weightedChoice VOWELS V_WEIGHTS (ρ 0)
  let ρ := rtail ρ
  let cp := if 7/10 < ρ 0 then
      (["n", "m", ""].getD (Int.toNat ⌊(rtail ρ) 0 * 3⌋) "", rtail (rtail ρ))
    else ("", rtail ρ)
  (onset ++ nucleus ++ cp.1, cp.2)

/-- Concatenate `n` generated syllables. -/
def genSyllables : ℕ → RandSrc → String × RandSrc
  | 0, ρ => ("", ρ)
  | n + 1, ρ =>
    let sp := genSyllable ρ
    let rp := genSyllables n sp.2
    (sp.1 ++ rp.1, rp.2)

/-- `genWord()`.  The source's dead first line
`const syls = [1,2,3][Math.floor(Math.random() * 3)]` still consumes one
draw; the count actually used comes from the `{15,50,35}` weights. -/
def genWord (ρ : RandSrc) : String × RandSrc :=
  let ρ := rtail ρ
  let r := ρ 0 * 100
  let ρ := rtail ρ
  let n : ℕ := if r ≤ 15 then 1 else if r ≤ 65 then 2 else if r ≤ 100 then 3 else 2
  genSyllables n ρ

/-- A living word's record. -/
structure WordData where
  meaning : String
  category : String
  born : ℕ
  uses : ℕ
  fitness : ℚ
  history : List String
deriving Repr, DecidableEq, Inhabited

/-- A compound's record. -/
structure CompoundData where
  parts : List String
  meanings : List String
  compound_meaning : String
  born : ℕ
deriving Repr, DecidableEq, Inhabited

/-- Snapshot of a word at death. -/
structure ExtinctRec where
  word : String
  meaning : String
  born : ℕ
  died : ℕ
  uses : ℕ
deriving Repr, DecidableEq, Inhabited

/-- A sound-shift record. -/
structure ShiftRec where
  gen : ℕ
  from_ : String
  to_ : String
  meaning : String
deriving Repr, DecidableEq, Inhabited

/-- Cumulative statistics. -/
structure Stats where
  total_generated : ℕ
  total_extinct : ℕ
  total_compounds : ℕ
  total_shifts : ℕ
deriving Repr, DecidableEq, Inhabited

/-- The events produced by `evolveStep` (the un-timestamped records the
source pushes onto its local `events` array). -/
inductive Event
  | birth (gen : ℕ) (word meaning category : String)
  | extinct (gen : ℕ) (word meaning : String)
  | shift (gen : ℕ) (from_ to_ meaning : String)
  | compound (gen : ℕ) (word meaning : String) (parts : List String)
deriving Repr, DecidableEq, Inhabited

/-- The lexicon state (`state` in the source), with all fields present.
Fresh seeding and every engine step keep all fields present, so the
source's defensive per-call re-initialisation (`if (!state.words) ...`)
is the identity on this model: JS objects and arrays are truthy even when
empty, and zero counters are reset to zero.  Archived events carry the
capture timestamp string. -/
structure LexState where
  words : List (String × WordData)
  compounds : List (String × CompoundData)
  generation : ℕ
  extinct : List ExtinctRec
  sound_shifts : List ShiftRec
  events : List (Event × String)
  stats : Stats
  piConnected : Bool
  lastPiSync : Option String
deriving Repr, DecidableEq

/-- JS object insert `m[k] = v`: update in place if the key exists (keeping
its position in key order), else append. -/
def objInsert {α : Type} (k : String) (v : α) : List (String × α) → List (String × α)
  | [] => [(k, v)]
  | p :: rest => if p.1 = k then (k, v) :: rest else p :: objInsert k v rest

/-- JS `delete m[k]`. -/
def objErase {α : Type} (k : String) : List (String × α) → List (String × α)
  | [] => []
  | p :: rest => if p.1 = k then rest else p :: objErase k rest

/-- In-place mutation of the value stored at `k` (key order unchanged). -/
def objModify {α : Type} (k : String) (f : α → α) : List (String × α) → List (String × α)
  | [] => []
  | p :: rest => if p.1 = k then (p.1, f p.2) :: rest else p :: objModify k f rest

/-- `arr.push(x)` followed by `if (arr.length > cap) arr = arr.slice(-cap)`. -/
def pushTrim {α : Type} (cap : ℕ) (x : α) (l : List α) : List α :=
  let l' := l ++ [x]
  if cap < l'.length then l'.drop (l'.length - cap) else l'

/-- Fresh-word retry loop `let word = genWord(); while (state.words[word])
word = genWord();`, with explicit fuel bounding the number of attempts. -/
def genFresh : ℕ → List (String × WordData) → RandSrc → Option (String × RandSrc)
  | 0, _, _ => none
  | fuel + 1, words, ρ =>
    let wp := genWord ρ
    if (words.lookup wp.1).isSome then genFresh fuel words wp.2 else some wp

/-- Step 1, birth (probability 0.7): pick an uncovered concept if any,
generate a fresh word form, insert it with fitness 0.5. -/
def birthStep (fuel : ℕ) (gen : ℕ) (words : List (String × WordData)) (stats : Stats)
    (ρ : RandSrc) : Option (List (String × WordData) × Stats × List Event × RandSrc) :=
  let u := ρ 0
  let ρ := rtail ρ
  if u < 7/10 then
    let covered := words.map (fun p => p.2.meaning)
    let uncovered := ALL_CONCEPTS.filter (fun c => !(covered.contains c))
    let v := ρ 0
    let ρ := rtail ρ
    let concept := if 0 < uncovered.length then listIdx uncovered v else listIdx ALL_CONCEPTS v
    match genFresh fuel words ρ with
    | none => none
    | some wp =>
      some (objInsert wp.1 ⟨concept, CONCEPT_CATS concept, gen, 0, 1/2, [wp.1]⟩ words,
            { stats with total_generated := stats.total_generated + 1 },
            [Event.birth gen wp.1 concept (CONCEPT_CATS concept)], wp.2)
  else some (words, stats, [], ρ)

/-- One usage bump: `uses++; fitness = Math.min(2.0, fitness + 0.1)`. -/
def bumpWord (d : WordData) : WordData :=
  { d with uses := d.uses + 1, fitness := min 2 (d.fitness + 1/10) }

/-- Draw-driven permutation modelling the source's
`[...words].sort(() => Math.random() - 0.5)`.  A random comparator yields an
engine-defined, draw-dependent permutation; we model it as the concrete
permutation obtained by repeatedly extracting a drawn index, which reaches
every permutation for suitable draws. -/
def shuffleAux : ℕ → List String → RandSrc → List String × RandSrc
  | 0, _, ρ => ([], ρ)
  | n + 1, l, ρ =>
    let i := Int.toNat ⌊ρ 0 * (l.length : ℚ)⌋
    let x := l.getD i ""
    let rest := l.take i ++ l.drop (i + 1)
    let tp := shuffleAux n rest (rtail ρ)
    (x :: tp.1, tp.2)

/-- Shuffle the key list (see `shuffleAux`). -/
def shuffleDraws (l : List String) (ρ : RandSrc) : List String × RandSrc :=
  shuffleAux l.length l ρ

/-- Bump the first `n` keys of the shuffled list. -/
def bumpN : ℕ → List String → List (String × WordData) → List (String × WordData)
  | 0, _, ws => ws
  | _ + 1, [], ws => ws
  | n + 1, k :: ks, ws => bumpN n ks (objModify k bumpWord ws)

/-- Step 2, usage: shuffle the keys and bump the first
`Math.min(Math.max(1, Math.floor(len/3)), len)` of them. -/
def usageStep (words : List (String × WordData)) (ρ : RandSrc) :
    List (String × WordData) × RandSrc :=
  let keys := words.map Prod.fst
  let usedCount := max 1 (keys.length / 3)
  let sp := shuffleDraws keys ρ
  (bumpN (min usedCount sp.1.length) sp.1 words, sp.2)

/-- Step 3, decay: words with `age = gen - born > 0` lose 0.05 fitness, and
a further 0.2 if never used and older than 3 generations. -/
def decayStep (gen : ℕ) (words : List (String × WordData)) : List (String × WordData) :=
  words.map (fun p =>
    let d := p.2
    let age : ℤ := (gen : ℤ) - (d.born : ℤ)
    if 0 < age then
      let f := d.fitness - 1/20
      let f := if d.uses = 0 ∧ 3 < age then f - 1/5 else f
      (p.1, { d with fitness := f })
    else p)

/-- Step 4, extinction: every word with `fitness <= 0` is deleted; for each,
an extinct record is pushed (ring-bounded to 50), an extinct event emitted,
and the extinction count incremented.  Returns (survivors, extinct ring,
extinct events, number of extinctions). -/
def extinctionStep (gen : ℕ) : List (String × WordData) → List ExtinctRec →
    List (String × WordData) × List ExtinctRec × List Event × ℕ
  | [], ext => ([], ext, [], 0)
  | (w, d) :: rest, ext =>
    if d.fitness ≤ 0 then
      match extinctionStep gen rest (pushTrim 50 ⟨w, d.meaning, d.born, gen, d.uses⟩ ext) with
      | (ws, extF, evs, n) => (ws, extF, Event.extinct gen w d.meaning :: evs, n + 1)
    else
      match extinctionStep gen rest ext with
      | (ws, extF, evs, n) => ((w, d) :: ws, extF, evs, n)

/-- Per-character loop of the sound-shift step over the split surface form:
each character with defined options fires with probability 0.15 and is
replaced by a uniformly drawn option. -/
def shiftChars : List String → RandSrc → List String × Bool × RandSrc
  | [], ρ => ([], false, ρ)
  | c :: rest, ρ =>
    match SOUND_SHIFTS.lookup c with
    | some opts =>
      if ρ 0 < 3/20 then
        let c' := opts.getD (Int.toNat ⌊(rtail ρ) 0 * (opts.length : ℚ)⌋) ""
        let tp := shiftChars rest (rtail (rtail ρ))
        (c' :: tp.1, true, tp.2.2)
      else
        let tp := shiftChars rest (rtail ρ)
        (c :: tp.1, tp.2.1, tp.2.2)
    | none =>
      let tp := shiftChars rest ρ
      (c :: tp.1, tp.2.1, tp.2.2)

/-- Step 5, sound shift (probability 0.1, only with living words): pick a
target uniformly, apply per-character substitutions; if something fired, the
form changed, and the new form is not already a living key, rename the word
(preserving all fields, appending to history), record the shift
(ring-bounded to 30) and emit a shift event. -/
def shiftStep (gen : ℕ) (words : List (String × WordData)) (shifts : List ShiftRec)
    (stats : Stats) (ρ : RandSrc) :
    List (String × WordData) × List ShiftRec × Stats × List Event × RandSrc :=
  let u := ρ 0
  let ρ := rtail ρ
  if u < 1/10 ∧ 0 < words.length then
    let target := listIdx (words.map Prod.fst) (ρ 0)
    let scp := shiftChars (target.data.map (fun c => String.mk [c])) (rtail ρ)
    let newForm := String.join scp.1
    if scp.2.1 ∧ newForm ≠ target ∧ (words.lookup newForm).isNone then
      match words.lookup target with
      | some d =>
        let d' := { d with history := d.history ++ [newForm] }
        (objInsert newForm d' (objErase target words),
         pushTrim 30 ⟨gen, target, newForm, d.meaning⟩ shifts,
         { stats with total_shifts := stats.total_shifts + 1 },
         [Event.shift gen target newForm d.meaning], scp.2.2)
      | none => (words, shifts, stats, [], scp.2.2)
    else (words, shifts, stats, [], scp.2.2)
  else (words, shifts, stats, [], ρ)

/-- Step 6, compounding (probability 0.15, only with at least 4 living
words): pick two keys uniformly; if distinct, concatenate the first word's
initial half (at least 2 characters) with the second's trailing half; insert
as a compound only if the form collides with neither map. -/
def compoundStep (gen : ℕ) (words : List (String × WordData))
    (compounds : List (String × CompoundData)) (stats : Stats) (ρ : RandSrc) :
    List (String × CompoundData) × Stats × List Event × RandSrc :=
  let u := ρ 0
  let ρ := rtail ρ
  if u < 3/20 ∧ 4 ≤ words.length then
    let keys := words.map Prod.fst
    let w1 := listIdx keys (ρ 0)
    let w2 := listIdx keys ((rtail ρ) 0)
    let ρ := rtail (rtail ρ)
    if w1 ≠ w2 then
      let compound := String.mk (w1.data.take (max 2 (w1.length / 2))) ++
                      String.mk (w2.data.drop (w2.length / 2))
      let m1 := ((words.lookup w1).map WordData.meaning).getD ""
      let m2 := ((words.lookup w2).map WordData.meaning).getD ""
      let meaning := m1 ++ "-" ++ m2
      if (words.lookup compound).isNone ∧ (compounds.lookup compound).isNone then
        (objInsert compound ⟨[w1, w2], [m1, m2], meaning, gen⟩ compounds,
         { stats with total_compounds := stats.total_compounds + 1 },
         [Event.compound gen compound meaning [w1, w2]], ρ)
      else (compounds, stats, [], ρ)
    else (compounds, stats, [], ρ)
  else (compounds, stats, [], ρ)

/-- `evolveStep()` (`advanceGeneration()`), as a function of the state, the
draw stream, the capture timestamp `time` used when archiving events, and
the retry fuel for fresh word generation.  Returns the new state, the events
of this call (un-timestamped, as the source returns them), and the remaining
stream; `none` when the fresh-word retry loop exceeds the fuel. -/
def evolveStep (fuel : ℕ) (time : String) (s : LexState) (ρ : RandSrc) :
    Option (LexState × List Event × RandSrc) :=
  let gen := s.generation + 1
  match birthStep fuel gen s.words s.stats ρ with
  | none => none
  | some bOut =>
    let w1 := bOut.1
    let st1 := bOut.2.1
    let ev1 := bOut.2.2.1
    let uOut := usageStep w1 bOut.2.2.2
    let w3 := decayStep gen uOut.1
    let eOut := extinctionStep gen w3 s.extinct
    let st2 := { st1 with total_extinct := st1.total_extinct + eOut.2.2.2 }
    let sOut := shiftStep gen eOut.1 s.sound_shifts st2 uOut.2
    let cOut := compoundStep gen sOut.1 s.compounds sOut.2.2.1 sOut.2.2.2.2
    let events := ev1 ++ eOut.2.2.1 ++ sOut.2.2.2.1 ++ cOut.2.2.1
    let stored := s.events ++ events.map (fun e => (e, time))
    let stored := if 200 < stored.length then stored.drop (stored.length - 200) else stored
    some ({ s with words := sOut.1, compounds := cOut.1, generation := gen,
                   extinct := eOut.2.1, sound_shifts := sOut.2.1, events := stored,
                   stats := cOut.2.1 },
          events, cOut.2.2.2)

/-- Iterate `evolveStep` `n` times, with a stream of capture timestamps. -/
def evolveN (fuel : ℕ) : (ℕ → String) → ℕ → LexState → RandSrc → Option (LexState × RandSrc)
  | _, 0, s, ρ => some (s, ρ)
  | τ, n + 1, s, ρ =>
    match evolveStep fuel (τ 0) s ρ with
    | none => none
    | some r => evolveN fuel (fun k => τ (k + 1)) n r.1 r.2.2

/-- One sentence word in the output of `generateSentence`. -/
structure SentWord where
  word : String
  meaning : String
  category : String
deriving Repr, DecidableEq, Inhabited

/-- Output of `generateSentence`. -/
structure Sentence where
  text : String
  gloss : String
  words : List SentWord
deriving Repr, DecidableEq, Inhabited

/-- The category preference queue `catOrder` in its initial order. -/
def catOrderInit : List String :=
  ["being", "quality", "action", "natural", "relation", "abstract"]

/-- The position loop of `generateSentence`: for each position, when the
queue is non-empty, draw a coin (short-circuit: no draw when the queue is
empty); on heads (`> 0.3`) POP the front category and, if some living word
has that category, pick one of those uniformly; in every other case pick a
uniformly random living word.  Note the source pops the category BEFORE
checking for candidates, so a preference miss still consumes it.  Returns
the picked `(key, record)` pairs, the final queue, and the stream. -/
def sentenceLoop (entries : List (String × WordData)) (keys : List String) :
    ℕ → List String → RandSrc → List (String × WordData) × List String × RandSrc
  | 0, catOrder, ρ => ([], catOrder, ρ)
  | n + 1, catOrder, ρ =>
    match catOrder with
    | c :: rest =>
      if 3/10 < ρ 0 then
        let candidates := entries.filter (fun p => p.2.category = c)
        if 0 < candidates.length then
          let pick := candidates.getD
            (Int.toNat ⌊(rtail ρ) 0 * (candidates.length : ℚ)⌋) ("", default)
          let tp := sentenceLoop entries keys n rest (rtail (rtail ρ))
          (pick :: tp.1, tp.2.1, tp.2.2)
        else
          let w := listIdx keys ((rtail ρ) 0)
          let d := ((entries.lookup w).getD default)
          let tp := sentenceLoop entries keys n rest (rtail (rtail ρ))
          ((w, d) :: tp.1, tp.2.1, tp.2.2)
      else
        let w := listIdx keys ((rtail ρ) 0)
        let d := ((entries.lookup w).getD default)
        let tp := sentenceLoop entries keys n catOrder (rtail (rtail ρ))
        ((w, d) :: tp.1, tp.2.1, tp.2.2)
    | [] =>
      let w := listIdx keys (ρ 0)
      let d := ((entries.lookup w).getD default)
      let tp := sentenceLoop entries keys n [] (rtail ρ)
      ((w, d) :: tp.1, tp.2.1, tp.2.2)

/-- `generateSentence()`: sentinel on an empty lexicon, else a sentence of
`3 + Math.floor(Math.random()*5)` positions sampled by `sentenceLoop`. -/
def generateSentence (s : LexState) (ρ : RandSrc) : Sentence :=
  let words := s.words.map Prod.fst
  if words.length = 0 then { text := "(silence)", gloss := "(empty lexicon)", words := [] }
  else
    let len := 3 + Int.toNat ⌊ρ 0 * 5⌋
    let sentWords := (sentenceLoop s.words words len catOrderInit (rtail ρ)).1
    { text := String.intercalate " " (sentWords.map Prod.fst),
      gloss := String.intercalate " " (sentWords.map (fun p => p.2.meaning)),
      words := sentWords.map (fun p => ⟨p.1, p.2.meaning, p.2.category⟩) }

/-- The 10 concept picks (with replacement) of the fresh-seeding loop. -/
def conceptPicks : ℕ → RandSrc → List String × RandSrc
  | 0, ρ => ([], ρ)
  | n + 1, ρ =>
    let c := listIdx ALL_CONCEPTS (ρ 0)
    let rp := conceptPicks n (rtail ρ)
    (c :: rp.1, rp.2)

/-- First-occurrence deduplication, as `[...new Set(initial)]` does. -/
def dedupFirst (seen : List String) : List String → List String
  | [] => []
  | x :: xs => if seen.contains x then dedupFirst seen xs
               else x :: dedupFirst (x :: seen) xs

/-- The seeding word loop: one generated word per surviving concept,
inserted WITHOUT checking surface-form uniqueness (a later concept whose
generated word collides overwrites the earlier entry). -/
def seedLoop : List String → List (String × WordData) → RandSrc →
    List (String × WordData) × RandSrc
  | [], ws, ρ => (ws, ρ)
  | c :: cs, ws, ρ =>
    let wp := genWord ρ
    seedLoop cs (objInsert wp.1 ⟨c, CONCEPT_CATS c, 0, 1, 1, [wp.1]⟩ ws) wp.2

/-- Fresh seeding (no snapshot): draw 10 concepts with replacement,
deduplicate keeping first occurrences, `slice(0, 10)`, generate one word per
concept, and set `stats.total_generated` to the number of SURVIVING words
(the size of the map, not the number of concepts). -/
def seedState (ρ : RandSrc) : LexState :=
  let ip := conceptPicks 10 ρ
  let unique := (dedupFirst [] ip.1).take 10
  let ws := (seedLoop unique [] ip.2).1
  { words := ws, compounds := [], generation := 0, extinct := [], sound_shifts := [],
    events := [],
    stats := { total_generated := ws.length, total_extinct := 0,
               total_compounds := 0, total_shifts := 0 },
    piConnected := false, lastPiSync := none }

/-- A snapshot received from the remote peer; absent (or JS-falsy) fields
are `none`. -/
structure Snapshot where
  words : Option (List (String × WordData))
  compounds : Option (List (String × CompoundData))
  generation : Option ℕ
  extinct : Option (List ExtinctRec)
  sound_shifts : Option (List ShiftRec)
  stats : Option Stats
deriving Repr, DecidableEq

/-- Result of the remote fetch: `failure` is the exception path (network
error, abort on the 3s timeout, or malformed JSON), `notOk` a response with
`res.ok` false, `ok` a parsed snapshot. -/
inductive FetchResult
  | failure
  | notOk
  | ok (pi : Snapshot)
deriving Repr, DecidableEq

/-- The merge of `syncFromPi` on a successful fetch: `words`, `compounds`
and `generation` are replaced wholesale (with empty/zero defaults), the
longer of the local/remote `extinct` and `sound_shifts` histories is kept
(local on ties), remote `stats` is preferred when present, and the local
`events` log is always kept. -/
def mergeSnapshot (s : LexState) (pi : Snapshot) (time : String) : LexState :=
  let ourEvents := s.events
  let ourExtinct := s.extinct
  let ourShifts := s.sound_shifts
  let ourStats := pi.stats.getD s.stats
  { words := pi.words.getD [],
    compounds := pi.compounds.getD [],
    generation := pi.generation.getD 0,
    extinct := match pi.extinct with
               | some e => if ourExtinct.length < e.length then e else ourExtinct
               | none => ourExtinct,
    sound_shifts := match pi.sound_shifts with
                    | some sh => if ourShifts.length < sh.length then sh else ourShifts
                    | none => ourShifts,
    stats := ourStats,
    events := ourEvents,
    piConnected := true,
    lastPiSync := some time }

/-- `syncFromPi()`, as a function of the fetch outcome: on success merge and
report connected; on a non-ok response fall through with no state change; on
the exception path only clear `piConnected`. -/
def syncFromPi (s : LexState) (r : FetchResult) (time : String) : LexState × Bool :=
  match r with
  | .ok pi => (mergeSnapshot s pi time, true)
  | .notOk => (s, false)
  | .failure => ({ s with piConnected := false }, false)

def c2state : LexState :=
  { words := [("ka", ⟨"fire", "natural", 0, 0, 1/20, ["ka"]⟩)],
    compounds := [], generation := 0, extinct := [], sound_shifts := [],
    events := [], stats := ⟨0, 0, 0, 0⟩, piConnected := false, lastPiSync := none }

def rho2a : RandSrc := fun n => [9/10, 0, 9/10, 9/10].getD n 0

def rho2b : RandSrc := fun n => [0, 0, 0, 0, 0, 0, 0, 1/2, 0, 9/10, 9/10].getD n 0

def keysDisjoint (s : LexState) : Bool :=
  s.words.all (fun p => (s.compounds.lookup p.1).isNone)

def c1state : LexState :=
  { words := [("ka", ⟨"fire", "natural", 0, 1, 1, ["ka"]⟩)],
    compounds := [("au", ⟨["a", "u"], ["water", "fire"], "water-fire", 0⟩)],
    generation := 0, extinct := [], sound_shifts := [],
    events := [], stats := ⟨0, 0, 0, 0⟩, piConnected := false, lastPiSync := none }

def rho1 : RandSrc :=
  fun n => [0, 0, 0, 1/2, 0, 0, 0, 0, 3/5, 0, 0, 0, 9/10, 9/10].getD n 0

def rho10 : RandSrc := fun n => if n = 1 then 1/80 else 0

def ex3words : List (String × WordData) := [("ka", ⟨"water", "natural", 0, 1, 1, ["ka"]⟩)]

def rho3 : RandSrc := fun n => [1/2, 0].getD n 0

/-- Seeding draws producing exactly the four living words
"ka", "ni", "tu", "se" (concept picks 0,1,2,3 then repeats). -/
def rhoSeed : RandSrc := fun n =>
  [0, 1/80, 2/80, 3/80, 0, 0, 0, 0, 0, 0,
   0, 0, 3/10, 0, 0, 0,
   0, 0, 3/10, 1/5, 2/5, 0,
   0, 0, 3/10, 7/20, 3/5, 0,
   0, 0, 3/10, 9/20, 4/5, 0].getD n 0

/-- Draws for two engine calls from the `rhoSeed` state: call 1 skips
birth and shift but fires compounding on "ka" and "tu", creating the
compound "kau"; call 2 fires a birth whose generated form is exactly
"kau". -/
def rhoC1 : RandSrc := fun n =>
  [9/10, 0, 0, 0, 0, 9/10, 1/10, 0, 1/2,
   0, 0, 0, 1/2, 3/10, 0, 0, 0, 0, 3/5, 0,
   0, 0, 0, 0, 0, 9/10, 9/10].getD n 0

/-- The uses counter of the scenario word "ka" right after the usage step
of an `evolveStep` call on `c2state`: `some (some 0)` when the usage step
selected another word, `some (some 1)` when it selected "ka" itself,
`none` when the birth retry loop ran out of fuel. -/
def c2UsageUses (fuel : ℕ) (ρ : RandSrc) : Option (Option ℕ) :=
  (birthStep fuel (c2state.generation + 1) c2state.words c2state.stats ρ).map
    (fun b => ((usageStep b.1 b.2.2.2).1.lookup "ka").map WordData.uses)

/-- The fitness of "ka" right after the usage step (same conventions as
`c2UsageUses`). -/
def c2UsageFitness (fuel : ℕ) (ρ : RandSrc) : Option (Option ℚ) :=
  (birthStep fuel (c2state.generation + 1) c2state.words c2state.stats ρ).map
    (fun b => ((usageStep b.1 b.2.2.2).1.lookup "ka").map WordData.fitness)

/-- The fitness of "ka" right after the decay step (same conventions as
`c2UsageUses`). -/
def c2DecayFitness (fuel : ℕ) (ρ : RandSrc) : Option (Option ℚ) :=
  (birthStep fuel (c2state.generation + 1) c2state.words c2state.stats ρ).map
    (fun b =>
      ((decayStep (c2state.generation + 1) (usageStep b.1 b.2.2.2).1).lookup "ka").map
        WordData.fitness)

/-- The state `evolveStep 1 "t" c2state rho2b` computes to (used by the
witness of the amended C2 theorem). -/
def c2resState : LexState :=
  { words := [("a", ⟨"water", "natural", 1, 1, 3/5, ["a"]⟩)], compounds := [],
    generation := 1, extinct := [⟨"ka", "fire", 0, 1, 0⟩], sound_shifts := [],
    events := [(Event.birth 1 "a" "water" "natural", "t"),
               (Event.extinct 1 "ka" "fire", "t")],
    stats := ⟨1, 1, 0, 0⟩, piConnected := false, lastPiSync := none }

/-- The events `evolveStep 1 "t" c2state rho2b` returns. -/
def c2resEvents : List Event :=
  [Event.birth 1 "a" "water" "natural", Event.extinct 1 "ka" "fire"]

/-- Boolean check that no surface form keys both maps.  The per-state form
of the key-uniqueness invariant. -/
def ringBounds (s : LexState) : Bool :=
  decide (s.extinct.length ≤ 50) && decide (s.sound_shifts.length ≤ 30) &&
  decide (s.events.length ≤ 200)

/-- `ringBounds` lifted over the optional result of `evolveN`. -/
def ringBoundsOpt (o : Option (LexState × RandSrc)) : Bool :=
  match o with
  | none => true
  | some r => ringBounds r.1

/-- Componentwise comparison of cumulative statistics. -/
def statsLeB (a b : Stats) : Bool :=
  decide (a.total_generated ≤ b.total_generated) && decide (a.total_extinct ≤ b.total_extinct) &&
  decide (a.total_compounds ≤ b.total_compounds) && decide (a.total_shifts ≤ b.total_shifts)

/-- `statsLeB` against the optional result of `evolveN`. -/
def statsLeOpt (st : Stats) (o : Option (LexState × RandSrc)) : Bool :=
  match o with
  | none => true
  | some r => statsLeB st r.1.stats

/-- Boolean check that every living word has positive fitness. -/
def allFitPos (ws : List (String × WordData)) : Bool :=
  ws.all (fun p => decide (0 < p.2.fitness))

/-- `allFitPos` on the living words of the optional result of `evolveStep`. -/
def postFitPos (o : Option (LexState × List Event × RandSrc)) : Bool :=
  match o with
  | none => true
  | some r => allFitPos r.1.words

/-- The extinct record the extinction loop pushes for a dying entry. -/
def mkExtinctRec (gen : ℕ) (p : String × WordData) : ExtinctRec :=
  ⟨p.1, p.2.meaning, p.2.born, gen, p.2.uses⟩

theorem lookup_some_mem {α : Type} {l : List (String × α)} {k : String} {v : α}
    (h : l.lookup k = some v) : (k, v) ∈ l := by
  induction l with
  | nil => simp [List.lookup] at h
  | cons p rest ih =>
    rw [List.lookup] at h
    by_cases hk : k = p.1
    · subst hk
      simp at h
      simp [← h]
    · have hbeq : (k == p.1) = false := by simp [hk]
      rw [hbeq] at h
      exact List.mem_cons_of_mem _ (ih h)

theorem lookup_none_forall {α : Type} {l : List (String × α)} {k : String}
    (h : l.lookup k = none) : ∀ p ∈ l, p.1 ≠ k := by
  induction l with
  | nil => simp
  | cons p rest ih =>
    rw [List.lookup] at h
    by_cases hk : k = p.1
    · subst hk; simp at h
    · have hbeq : (k == p.1) = false := by simp [hk]
      rw [hbeq] at h
      intro q hq
      rcases List.mem_cons.mp hq with hq | hq
      · subst hq; exact fun he => hk he.symm
      · exact ih h q hq

theorem objInsert_lookup_ne {α : Type} {k k' : String} (v : α) (l : List (String × α))
    (h : k' ≠ k) : (objInsert k v l).lookup k' = l.lookup k' := by
  have hbk : (k' == k) = false := by simp [h]
  induction l with
  | nil => simp [objInsert, List.lookup, hbk]
  | cons p rest ih =>
    by_cases hp : p.1 = k
    · rw [objInsert]
      simp only [hp, if_true]
      rw [List.lookup, List.lookup, hbk]
      have : (k' == p.1) = false := by rw [hp]; exact hbk
      rw [this]
    · rw [objInsert]
      simp only [hp, if_false]
      rw [List.lookup, List.lookup]
      by_cases hk' : k' = p.1
      · have : (k' == p.1) = true := by simp [hk']
        rw [this]
      · have : (k' == p.1) = false := by simp [hk']
        rw [this, ih]

theorem objInsert_all {α : Type} {f : String × α → Bool} {k : String} {v : α}
    {l : List (String × α)} (hl : l.all f = true) (hv : f (k, v) = true) :
    (objInsert k v l).all f = true := by
  induction l with
  | nil => simp [objInsert, hv]
  | cons p rest ih =>
    rw [List.all_cons, Bool.and_eq_true] at hl
    by_cases hp : p.1 = k
    · rw [objInsert]
      simp only [hp, if_true]
      rw [List.all_cons, Bool.and_eq_true]
      exact ⟨hv, hl.2⟩
    · rw [objInsert]
      simp only [hp, if_false]
      rw [List.all_cons, Bool.and_eq_true]
      exact ⟨hl.1, ih hl.2⟩

theorem objErase_all {α : Type} {f : String × α → Bool} {k : String}
    {l : List (String × α)} (hl : l.all f = true) : (objErase k l).all f = true := by
  induction l with
  | nil => simp [objErase]
  | cons p rest ih =>
    rw [List.all_cons, Bool.and_eq_true] at hl
    by_cases hp : p.1 = k
    · rw [objErase]
      simp only [hp, if_true]
      exact hl.2
    · rw [objErase]
      simp only [hp, if_false]
      rw [List.all_cons, Bool.and_eq_true]
      exact ⟨hl.1, ih hl.2⟩

theorem pushTrim_length_le {α : Type} {cap : ℕ} (x : α) (l : List α) :
    (pushTrim cap x l).length ≤ cap := by
  simp only [pushTrim]
  split
  · simp
    omega
  · rename_i hle
    simp at hle
    simpa using hle

theorem extinctionStep_spec (gen : ℕ) (ws : List (String × WordData)) :
    ∀ ext : List ExtinctRec,
    (extinctionStep gen ws ext).1 = ws.filter (fun p => !decide (p.2.fitness ≤ 0)) ∧
    (extinctionStep gen ws ext).2.2.1 =
      (ws.filter (fun p => decide (p.2.fitness ≤ 0))).map
        (fun p => Event.extinct gen p.1 p.2.meaning) ∧
    (extinctionStep gen ws ext).2.2.2 =
      (ws.filter (fun p => decide (p.2.fitness ≤ 0))).length ∧
    (extinctionStep gen ws ext).2.1 =
      (ws.filter (fun p => decide (p.2.fitness ≤ 0))).foldl
        (fun e p => pushTrim 50 (mkExtinctRec gen p) e) ext := by
  induction ws with
  | nil => intro ext; simp [extinctionStep]
  | cons p rest ih =>
    intro ext
    obtain ⟨w, d⟩ := p
    by_cases hf : d.fitness ≤ 0
    · rcases hrec : extinctionStep gen rest (pushTrim 50 (mkExtinctRec gen (w, d)) ext) with
        ⟨ws1, ext1, evs1, n1⟩
      have := ih (pushTrim 50 (mkExtinctRec gen (w, d)) ext)
      rw [hrec] at this
      simp only [extinctionStep, if_pos hf, mkExtinctRec] at hrec ⊢
      rw [hrec]
      simp only [List.filter_cons, decide_eq_true hf, Bool.not_true, if_true]
      simp only [mkExtinctRec] at this
      refine ⟨this.1, ?_, ?_, ?_⟩
      · simp [this.2.1]
      · simp [this.2.2.1]
      · simp [this.2.2.2]
    · rcases hrec : extinctionStep gen rest ext with ⟨ws1, ext1, evs1, n1⟩
      have := ih ext
      rw [hrec] at this
      simp only [extinctionStep, if_neg hf] at hrec ⊢
      rw [hrec]
      have hfilter : List.filter (fun p => !decide (p.2.fitness ≤ 0)) ((w, d) :: rest) =
          (w, d) :: List.filter (fun p => !decide (p.2.fitness ≤ 0)) rest := by
        simp [List.filter_cons, hf]
      have hfilter2 : List.filter (fun p => decide (p.2.fitness ≤ 0)) ((w, d) :: rest) =
          List.filter (fun p => decide (p.2.fitness ≤ 0)) rest := by
        simp [List.filter_cons, hf]
      rw [hfilter, hfilter2]
      exact ⟨congrArg (List.cons (w, d)) this.1, this.2.1, this.2.2.1, this.2.2.2⟩

theorem extinctionStep_ext_length (gen : ℕ) (ws : List (String × WordData)) :
    ∀ ext : List ExtinctRec, ext.length ≤ 50 →
    ((extinctionStep gen ws ext).2.1).length ≤ 50 := by
  induction ws with
  | nil => intro ext h; simpa [extinctionStep] using h
  | cons p rest ih =>
    intro ext h
    obtain ⟨w, d⟩ := p
    by_cases hf : d.fitness ≤ 0
    · rcases hrec : extinctionStep gen rest (pushTrim 50 ⟨w, d.meaning, d.born, gen, d.uses⟩ ext)
        with ⟨ws1, ext1, evs1, n1⟩
      have := ih (pushTrim 50 ⟨w, d.meaning, d.born, gen, d.uses⟩ ext)
        (pushTrim_length_le _ _)
      rw [hrec] at this
      simp only [extinctionStep, if_pos hf]
      rw [hrec]
      exact this
    · rcases hrec : extinctionStep gen rest ext with ⟨ws1, ext1, evs1, n1⟩
      have := ih ext h
      rw [hrec] at this
      simp only [extinctionStep, if_neg hf]
      rw [hrec]
      exact this

theorem statsLeB_refl (a : Stats) : statsLeB a a = true := by
  simp [statsLeB]

theorem statsLeB_trans {a b c : Stats} (h1 : statsLeB a b = true)
    (h2 : statsLeB b c = true) : statsLeB a c = true := by
  simp only [statsLeB, Bool.and_eq_true, decide_eq_true_eq] at h1 h2 ⊢
  omega

theorem birthStep_stats {fuel gen : ℕ} {words : List (String × WordData)} {stats : Stats}
    {ρ : RandSrc} {out : List (String × WordData) × Stats × List Event × RandSrc}
    (h : birthStep fuel gen words stats ρ = some out) : statsLeB stats out.2.1 = true := by
  simp only [birthStep] at h
  split at h
  · split at h
    · exact Option.noConfusion h
    · simp only [Option.some.injEq] at h
      subst h
      simp [statsLeB]
  · simp only [Option.some.injEq] at h
    subst h
    exact statsLeB_refl stats

theorem shiftStep_stats (gen : ℕ) (ws : List (String × WordData)) (sh : List ShiftRec)
    (st : Stats) (ρ : RandSrc) : statsLeB st (shiftStep gen ws sh st ρ).2.2.1 = true := by
  simp only [shiftStep]
  split
  · split
    · split
      · simp [statsLeB]
      · exact statsLeB_refl st
    · exact statsLeB_refl st
  · exact statsLeB_refl st

theorem shiftStep_shifts_bound (gen : ℕ) (ws : List (String × WordData)) (sh : List ShiftRec)
    (st : Stats) (ρ : RandSrc) (h : sh.length ≤ 30) :
    ((shiftStep gen ws sh st ρ).2.1).length ≤ 30 := by
  simp only [shiftStep]
  split
  · split
    · split
      · exact pushTrim_length_le _ _
      · exact h
    · exact h
  · exact h

theorem shiftStep_allFitPos (gen : ℕ) (ws : List (String × WordData)) (sh : List ShiftRec)
    (st : Stats) (ρ : RandSrc) (h : allFitPos ws = true) :
    allFitPos (shiftStep gen ws sh st ρ).1 = true := by
  simp only [shiftStep]
  split
  · split
    · split
      · rename_i d hd
        refine objInsert_all (objErase_all h) ?_
        have hmem := lookup_some_mem hd
        have := List.all_eq_true.mp h _ hmem
        simpa using this
      · exact h
    · exact h
  · exact h

theorem compoundStep_stats (gen : ℕ) (ws : List (String × WordData))
    (cs : List (String × CompoundData)) (st : Stats) (ρ : RandSrc) :
    statsLeB st (compoundStep gen ws cs st ρ).2.1 = true := by
  simp only [compoundStep]
  split
  · split
    · split
      · simp [statsLeB]
      · exact statsLeB_refl st
    · exact statsLeB_refl st
  · exact statsLeB_refl st

theorem statsLeOpt_mono {a b : Stats} {o : Option (LexState × RandSrc)}
    (h1 : statsLeB a b = true) (h2 : statsLeOpt b o = true) : statsLeOpt a o = true := by
  cases o with
  | none => rfl
  | some r => exact statsLeB_trans h1 h2

theorem evolveStep_stats {fuel : ℕ} {t : String} {s : LexState} {ρ : RandSrc}
    {r : LexState × List Event × RandSrc}
    (h : evolveStep fuel t s ρ = some r) : statsLeB s.stats r.1.stats = true := by
  simp only [evolveStep] at h
  split at h
  · exact Option.noConfusion h
  · rename_i bOut heq
    simp only [Option.some.injEq] at h
    subst h
    refine statsLeB_trans (birthStep_stats heq) ?_
    refine statsLeB_trans ?_ (statsLeB_trans (shiftStep_stats _ _ _ _ _)
      (compoundStep_stats _ _ _ _ _))
    simp [statsLeB]

theorem allFitPos_filter (ws : List (String × WordData)) :
    allFitPos (ws.filter (fun p => !decide (p.2.fitness ≤ 0))) = true := by
  simp only [allFitPos, List.all_eq_true]
  intro p hp
  have := List.of_mem_filter hp
  simp at this ⊢
  linarith

theorem evolveStep_postFitPos {fuel : ℕ} {t : String} {s : LexState} {ρ : RandSrc}
    {r : LexState × List Event × RandSrc}
    (h : evolveStep fuel t s ρ = some r) : allFitPos r.1.words = true := by
  simp only [evolveStep] at h
  split at h
  · exact Option.noConfusion h
  · rename_i bOut heq
    simp only [Option.some.injEq] at h
    subst h
    refine shiftStep_allFitPos _ _ _ _ _ ?_
    have hspec := (extinctionStep_spec (s.generation + 1)
      (decayStep (s.generation + 1) (usageStep bOut.1 bOut.2.2.2).1) s.extinct).1
    rw [hspec]
    exact allFitPos_filter _

theorem evolveStep_ringBounds {fuel : ℕ} {t : String} {s : LexState} {ρ : RandSrc}
    {r : LexState × List Event × RandSrc}
    (h : evolveStep fuel t s ρ = some r) (hb : ringBounds s = true) :
    ringBounds r.1 = true := by
  simp only [ringBounds, Bool.and_eq_true, decide_eq_true_eq] at hb
  simp only [evolveStep] at h
  split at h
  · exact Option.noConfusion h
  · rename_i bOut heq
    simp only [Option.some.injEq] at h
    subst h
    simp only [ringBounds, Bool.and_eq_true, decide_eq_true_eq]
    refine ⟨⟨extinctionStep_ext_length _ _ _ hb.1.1, shiftStep_shifts_bound _ _ _ _ _ hb.1.2⟩, ?_⟩
    split
    · rw [List.length_drop]
      omega
    · rename_i hlen
      simpa using Nat.le_of_not_lt hlen

theorem evolveN_statsLe (fuel : ℕ) : ∀ (n : ℕ) (τ : ℕ → String) (s : LexState) (ρ : RandSrc),
    statsLeOpt s.stats (evolveN fuel τ n s ρ) = true := by
  intro n
  induction n with
  | zero => intro τ s ρ; exact statsLeB_refl s.stats
  | succ n ih =>
    intro τ s ρ
    rw [evolveN]
    cases h : evolveStep fuel (τ 0) s ρ with
    | none => rfl
    | some r => exact statsLeOpt_mono (evolveStep_stats h) (ih _ r.1 r.2.2)

theorem evolveN_ringBounds (fuel : ℕ) : ∀ (n : ℕ) (τ : ℕ → String) (s : LexState) (ρ : RandSrc),
    ringBounds s = true → ringBoundsOpt (evolveN fuel τ n s ρ) = true := by
  intro n
  induction n with
  | zero => intro τ s ρ hb; exact hb
  | succ n ih =>
    intro τ s ρ hb
    rw [evolveN]
    cases h : evolveStep fuel (τ 0) s ρ with
    | none => rfl
    | some r => exact ih _ r.1 r.2.2 (evolveStep_ringBounds h hb)

theorem wcLoop_mem {α : Type} {r : ℚ} {items : List α} {weights : List ℚ} {cum : ℚ} {x : α}
    (h : wcLoop r items weights cum = some x) : x ∈ items := by
  induction items generalizing weights cum with
  | nil => simp [wcLoop] at h
  | cons a rest ih =>
    cases weights with
    | nil => simp [wcLoop] at h
    | cons w ws =>
      rw [wcLoop] at h
      split at h
      · simp only [Option.some.injEq] at h
        subst h
        exact List.mem_cons_self a rest
      · exact List.mem_cons_of_mem _ (ih h)

theorem weightedChoice_mem {α : Type} [Inhabited α] (items : List α) (weights : List ℚ)
    (u : ℚ) (hne : items ≠ []) : weightedChoice items weights u ∈ items := by
  simp only [weightedChoice]
  split
  · rename_i x hx
    exact wcLoop_mem hx
  · rw [List.getLast?_eq_getLast _ hne]
    simp only [Option.getD_some]
    exact List.getLast_mem hne

theorem genSyllable_struct (ρ : RandSrc) :
    ∃ o nu co : String, (genSyllable ρ).1 = o ++ nu ++ co ∧ nu ∈ VOWELS := by
  simp only [genSyllable]
  exact ⟨_, _, _, rfl, weightedChoice_mem _ _ _ (by simp [VOWELS])⟩

theorem genSyllable_length (ρ : RandSrc) : 1 ≤ (genSyllable ρ).1.length := by
  obtain ⟨o, nu, co, heq, hmem⟩ := genSyllable_struct ρ
  rw [heq, String.length_append, String.length_append]
  have : nu.length = 1 := by
    have : ∀ v ∈ VOWELS, String.length v = 1 := by decide
    exact this nu hmem
  omega

theorem genSyllables_length (n : ℕ) (ρ : RandSrc) :
    1 ≤ (genSyllables (n + 1) ρ).1.length := by
  rw [genSyllables]
  have h1 := genSyllable_length ρ
  simp only [String.length_append]
  omega

theorem genWord_length (ρ : RandSrc) : 1 ≤ (genWord ρ).1.length := by
  simp only [genWord]
  split
  · exact genSyllables_length 0 _
  · split
    · exact genSyllables_length 1 _
    · split
      · exact genSyllables_length 2 _
      · exact genSyllables_length 1 _

theorem genFresh_length {fuel : ℕ} {words : List (String × WordData)} {ρ : RandSrc}
    {out : String × RandSrc} (h : genFresh fuel words ρ = some out) : 1 ≤ out.1.length := by
  induction fuel generalizing ρ with
  | zero => exact Option.noConfusion h
  | succ fuel ih =>
    simp only [genFresh] at h
    split at h
    · exact ih h
    · simp only [Option.some.injEq] at h
      subst h
      exact genWord_length ρ

theorem birthStep_no_empty_key {fuel gen : ℕ} {words : List (String × WordData)}
    {stats : Stats} {ρ : RandSrc} {out : List (String × WordData) × Stats × List Event × RandSrc}
    (h : birthStep fuel gen words stats ρ = some out) :
    out.1.lookup "" = words.lookup "" := by
  simp only [birthStep] at h
  split at h
  · split at h
    · exact Option.noConfusion h
    · rename_i wp heq
      simp only [Option.some.injEq] at h
      subst h
      have hlen := genFresh_length heq
      have hne : ("" : String) ≠ wp.1 := by
        intro he
        rw [← he] at hlen
        simp at hlen
      exact objInsert_lookup_ne _ _ hne
  · simp only [Option.some.injEq] at h
    subst h
    rfl

theorem compoundStep_disjoint (gen : ℕ) (ws : List (String × WordData))
    (cs : List (String × CompoundData)) (st : Stats) (ρ : RandSrc)
    (h : ws.all (fun p => (cs.lookup p.1).isNone) = true) :
    ws.all (fun p => (((compoundStep gen ws cs st ρ).1).lookup p.1).isNone) = true := by
  simp only [compoundStep]
  split
  · split
    · split
      · rename_i h2
        rw [List.all_eq_true] at h ⊢
        intro p hp
        have hC := Option.isNone_iff_eq_none.mp h2.1
        have hne := lookup_none_forall hC p hp
        simp only []
        rw [objInsert_lookup_ne _ _ hne]
        exact h p hp
      · exact h
    · exact h
  · exact h

theorem sentenceLoop_miss (entries : List (String × WordData)) (keys : List String)
    (n : ℕ) (c : String) (rest : List String) (ρ : RandSrc)
    (h1 : 3/10 < ρ 0) (h2 : entries.filter (fun p => p.2.category = c) = []) :
    (sentenceLoop entries keys (n + 1) (c :: rest) ρ).1.head? =
      some (listIdx keys ((rtail ρ) 0),
            (entries.lookup (listIdx keys ((rtail ρ) 0))).getD default) ∧
    (sentenceLoop entries keys (n + 1) (c :: rest) ρ).2.1 =
      (sentenceLoop entries keys n rest (rtail (rtail ρ))).2.1 := by
  simp only [sentenceLoop]
  rw [if_pos h1, h2]
  simp

set_option maxRecDepth 8000 in
/-- C1 (counterexample): disjointness of the living-words and compounds
key sets is violated on a genuinely reachable state.  From a fresh process
start, `rhoSeed` seeds the lexicon with the four words "ka", "ni", "tu",
"se"; on the first `advanceGeneration()` the compounding step builds the
compound "kau" from "ka" and "tu"; on the second, the birth step — whose
retry loop checks candidate forms only against living words — generates
exactly the form "kau", which afterwards keys both maps at once. -/
theorem C1_counterexample :
    (seedState rhoSeed).words.map Prod.fst = ["ka", "ni", "tu", "se"] ∧
    keysDisjoint (seedState rhoSeed) = true ∧
    (evolveN 9 (fun _ => "t") 2 (seedState rhoSeed) rhoC1).map
      (fun r => (keysDisjoint r.1, r.1.compounds.map Prod.fst,
                 (r.1.words.lookup "kau").isSome)) =
      some (false, ["kau"], true) :=
  ⟨by decide, by decide, by decide⟩

/-- C1 (amended): of the three steps the spec names, only the compounding
step preserves disjointness of the living-words and compounds key sets: it
inserts a compound only when the form collides with neither map.  The birth
step and the sound-shift rename check candidate forms only against the
living words, so either can land on an existing compound key and break
disjointness (see `C1_counterexample`). -/
theorem C1_compound_preserves_disjointness (gen : ℕ) (ws : List (String × WordData))
    (cs : List (String × CompoundData)) (st : Stats) (ρ : RandSrc)
    (h : ws.all (fun p => (cs.lookup p.1).isNone) = true) :
    ws.all (fun p => (((compoundStep gen ws cs st ρ).1).lookup p.1).isNone) = true :=
  compoundStep_disjoint gen ws cs st ρ h

/-- Witness for `C1_compound_preserves_disjointness` at a concrete input. -/
theorem C1_witness :
    (c1state.words.all (fun p => (c1state.compounds.lookup p.1).isNone) = true) ∧
    c1state.words.all
      (fun p =>
        (((compoundStep 1 c1state.words c1state.compounds c1state.stats rho1).1).lookup
          p.1).isNone) = true :=
  ⟨by decide,
   C1_compound_preserves_disjointness 1 c1state.words c1state.compounds c1state.stats rho1
     (by decide)⟩

/-- C2 (counterexample): the claim that one `advanceGeneration()` call
removes the boundary word for EVERY outcome of the random draws fails.  In
`c2state` the sole word has fitness 0.05, uses 0, and age 1; under `rho2a`
no birth fires, so the usage step (which always bumps
`max(1, floor(n/3)) ≥ 1` words) selects that word, raising fitness to 0.15;
decay brings it to 0.10 and the word survives with no extinct record. -/
theorem C2_counterexample :
    (evolveStep 1 "t" c2state rho2a).map
      (fun r => ((r.1.words.lookup "ka").map WordData.fitness, r.1.extinct.length,
                 r.1.stats.total_extinct)) =
    some (some (1/10), 0, 0) := by decide



/-- C3 (counterexample): the claim that a preference miss removes nothing
from the preference queue fails.  With `ex3words` (no word of category
"being") and `rho3` (first draw 0.5 takes the 0.7 preference branch), the
first sentence position misses on "being", falls back to a uniform pick —
and the queue afterwards has lost "being": `catOrder.shift()` runs before
candidates are checked. -/
theorem C3_counterexample :
    (3/10 < rho3 0) ∧
    ex3words.filter (fun p => p.2.category = "being") = [] ∧
    (sentenceLoop ex3words ["ka"] 1 catOrderInit rho3).2.1 =
      ["quality", "action", "natural", "relation", "abstract"] ∧
    decide ((sentenceLoop ex3words ["ka"] 1 catOrderInit rho3).2.1 = catOrderInit) = false :=
  ⟨by decide, by decide, by decide, by decide⟩

/-- C3 (amended): when the 0.7 preference branch is taken but no living
word belongs to the front category, a uniformly random living word is
chosen AND the missed category is still popped from the preference queue
(the source pops before checking candidates), so it is no longer available
for later positions of the same sentence. -/
theorem C3_miss_pops_category (entries : List (String × WordData)) (keys : List String)
    (n : ℕ) (c : String) (rest : List String) (ρ : RandSrc)
    (h1 : 3/10 < ρ 0) (h2 : entries.filter (fun p => p.2.category = c) = []) :
    (sentenceLoop entries keys (n + 1) (c :: rest) ρ).1.head? =
      some (listIdx keys ((rtail ρ) 0),
            (entries.lookup (listIdx keys ((rtail ρ) 0))).getD default) ∧
    (sentenceLoop entries keys (n + 1) (c :: rest) ρ).2.1 =
      (sentenceLoop entries keys n rest (rtail (rtail ρ))).2.1 :=
  sentenceLoop_miss entries keys n c rest ρ h1 h2

/-- Witness for `C3_miss_pops_category` at a concrete input. -/
theorem C3_witness :
    (sentenceLoop ex3words ["ka"] 1
        ("being" :: ["quality", "action", "natural", "relation", "abstract"]) rho3).1.head? =
      some (listIdx ["ka"] ((rtail rho3) 0),
            (ex3words.lookup (listIdx ["ka"] ((rtail rho3) 0))).getD default) ∧
    (sentenceLoop ex3words ["ka"] 1
        ("being" :: ["quality", "action", "natural", "relation", "abstract"]) rho3).2.1 =
      (sentenceLoop ex3words ["ka"] 0 ["quality", "action", "natural", "relation", "abstract"]
        (rtail (rtail rho3))).2.1 :=
  C3_miss_pops_category ex3words ["ka"] 0 "being"
    ["quality", "action", "natural", "relation", "abstract"] rho3 (by decide) (by decide)

/-- C4 (counterexample): the claim that identical states and identical
random draws alone force identical resulting states — including the
archived event records — fails, because archived events carry a wall-clock
timestamp (`new Date().toISOString()`) that is not determined by the
draws.  Same state, same draws, two different clock readings: the returned
event lists agree but the archived event logs differ. -/
theorem C4_counterexample :
    (evolveStep 1 "T1" c2state rho2b).map (fun r => r.2.1) =
      (evolveStep 1 "T2" c2state rho2b).map (fun r => r.2.1) ∧
    decide ((evolveStep 1 "T1" c2state rho2b).map (fun r => r.1.events) =
            (evolveStep 1 "T2" c2state rho2b).map (fun r => r.1.events)) = false :=
  ⟨by decide, by decide⟩

/-- C4 (amended): `evolveStep` is deterministic in its three inputs — two
runs from equal states, pointwise-equal draw streams, AND equal clock
readings produce identical results (state, returned events, archived
records, and remaining stream alike). -/
theorem C4_determinism_fixed_clock (fuel : ℕ) (t₁ t₂ : String) (s₁ s₂ : LexState)
    (ρ₁ ρ₂ : RandSrc) (hs : s₁ = s₂) (hρ : ∀ n, ρ₁ n = ρ₂ n) (ht : t₁ = t₂) :
    evolveStep fuel t₁ s₁ ρ₁ = evolveStep fuel t₂ s₂ ρ₂ := by
  subst hs
  subst ht
  rw [funext hρ]

/-- Witness for `C4_determinism_fixed_clock` at a concrete input. -/
theorem C4_witness :
    evolveStep 1 "t" c2state rho2a = evolveStep 1 "t" c2state rho2a :=
  C4_determinism_fixed_clock 1 "t" "t" c2state c2state rho2a rho2a rfl (fun _ => rfl) rfl

/-- C5: the history rings are bounded — a freshly seeded state satisfies
the bounds, and any number of `evolveStep` calls preserves
`extinct.length ≤ 50`, `sound_shifts.length ≤ 30`, and
`events.length ≤ 200`. -/
theorem C5_ring_bounds :
    (∀ ρ : RandSrc, ringBounds (seedState ρ) = true) ∧
    (∀ (fuel : ℕ) (τ : ℕ → String) (n : ℕ) (s : LexState) (ρ : RandSrc),
      ringBounds s = true → ringBoundsOpt (evolveN fuel τ n s ρ) = true) :=
  ⟨fun _ => rfl, fun fuel τ n s ρ h => evolveN_ringBounds fuel n τ s ρ h⟩

/-- Witness for `C5_ring_bounds` at a concrete input. -/
theorem C5_witness :
    ringBounds c2state = true ∧
    ringBoundsOpt (evolveN 1 (fun _ => "t") 1 c2state rho2a) = true :=
  ⟨by decide, C5_ring_bounds.2 1 (fun _ => "t") 1 c2state rho2a (by decide)⟩

/-- C6: the extinction step removes exactly the words whose post-decay
fitness is ≤ 0 (all of them, in one call), appends one extinct record per
removed word through the 50-ring, emits one extinct event per removed word,
and reports the extinction count that is added to `total_extinct`;
consequently after any complete `evolveStep` call every living word has
positive fitness. -/
theorem C6_extinction_complete :
    (∀ (gen : ℕ) (ws : List (String × WordData)) (ext : List ExtinctRec),
      (extinctionStep gen ws ext).1 = ws.filter (fun p => !decide (p.2.fitness ≤ 0)) ∧
      (extinctionStep gen ws ext).2.2.1 =
        (ws.filter (fun p => decide (p.2.fitness ≤ 0))).map
          (fun p => Event.extinct gen p.1 p.2.meaning) ∧
      (extinctionStep gen ws ext).2.2.2 =
        (ws.filter (fun p => decide (p.2.fitness ≤ 0))).length ∧
      (extinctionStep gen ws ext).2.1 =
        (ws.filter (fun p => decide (p.2.fitness ≤ 0))).foldl
          (fun e p => pushTrim 50 (mkExtinctRec gen p) e) ext) ∧
    (∀ (fuel : ℕ) (t : String) (s : LexState) (ρ : RandSrc),
      postFitPos (evolveStep fuel t s ρ) = true) :=
  ⟨fun gen ws ext => extinctionStep_spec gen ws ext,
   fun fuel t s ρ => by
    cases h : evolveStep fuel t s ρ with
    | none => rfl
    | some r => exact evolveStep_postFitPos h⟩

/-- C7: the synchronizer merge replaces `words`, `compounds` and
`generation` wholesale (with empty/zero defaults for absent fields), keeps
whichever of the local/remote `extinct` and `sound_shifts` histories is
longer (the kept list is one of the two and its length is the max of both;
ties keep local), prefers remote `stats` when present else keeps local,
and always keeps the local `events` log; on the failure/timeout path the
state is left untouched except for clearing the `piConnected` flag. -/
theorem C7_sync_merge_policy :
    (∀ (s : LexState) (pi : Snapshot) (t : String),
      ((syncFromPi s (.ok pi) t).1.words = pi.words.getD [] ∧
       (syncFromPi s (.ok pi) t).1.compounds = pi.compounds.getD [] ∧
       (syncFromPi s (.ok pi) t).1.generation = pi.generation.getD 0) ∧
      ((syncFromPi s (.ok pi) t).1.extinct = s.extinct ∨
       (syncFromPi s (.ok pi) t).1.extinct = pi.extinct.getD s.extinct) ∧
      (syncFromPi s (.ok pi) t).1.extinct.length =
        max s.extinct.length (pi.extinct.getD s.extinct).length ∧
      ((syncFromPi s (.ok pi) t).1.sound_shifts = s.sound_shifts ∨
       (syncFromPi s (.ok pi) t).1.sound_shifts = pi.sound_shifts.getD s.sound_shifts) ∧
      (syncFromPi s (.ok pi) t).1.sound_shifts.length =
        max s.sound_shifts.length (pi.sound_shifts.getD s.sound_shifts).length ∧
      (syncFromPi s (.ok pi) t).1.stats = pi.stats.getD s.stats ∧
      (syncFromPi s (.ok pi) t).1.events = s.events) ∧
    (∀ (s : LexState) (t : String),
      syncFromPi s .failure t = ({ s with piConnected := false }, false)) := by
  constructor
  · intro s pi t
    refine ⟨⟨rfl, rfl, rfl⟩, ?_, ?_, ?_, ?_, rfl, rfl⟩
    · cases hext : pi.extinct with
      | none => exact Or.inl (by simp [syncFromPi, mergeSnapshot, hext])
      | some e =>
        simp only [syncFromPi, mergeSnapshot, hext, Option.getD_some]
        split
        · exact Or.inr rfl
        · exact Or.inl rfl
    · cases hext : pi.extinct with
      | none => simp [syncFromPi, mergeSnapshot, hext]
      | some e =>
        simp only [syncFromPi, mergeSnapshot, hext, Option.getD_some]
        split
        · rename_i hlt
          omega
        · rename_i hlt
          omega
    · cases hsh : pi.sound_shifts with
      | none => exact Or.inl (by simp [syncFromPi, mergeSnapshot, hsh])
      | some e =>
        simp only [syncFromPi, mergeSnapshot, hsh, Option.getD_some]
        split
        · exact Or.inr rfl
        · exact Or.inl rfl
    · cases hsh : pi.sound_shifts with
      | none => simp [syncFromPi, mergeSnapshot, hsh]
      | some e =>
        simp only [syncFromPi, mergeSnapshot, hsh, Option.getD_some]
        split
        · rename_i hlt
          omega
        · rename_i hlt
          omega
  · intro s t
    rfl

/-- C8: the four cumulative counters never decrease — neither across a
single `evolveStep` call nor across any iterated sequence of calls. -/
theorem C8_stats_monotone :
    (∀ (fuel : ℕ) (t : String) (s : LexState) (ρ : RandSrc),
      (match evolveStep fuel t s ρ with
       | none => true
       | some r => statsLeB s.stats r.1.stats) = true) ∧
    (∀ (fuel : ℕ) (τ : ℕ → String) (n : ℕ) (s : LexState) (ρ : RandSrc),
      statsLeOpt s.stats (evolveN fuel τ n s ρ) = true) :=
  ⟨fun fuel t s ρ => by
    cases h : evolveStep fuel t s ρ with
    | none => rfl
    | some r => exact evolveStep_stats h,
   fun fuel τ n s ρ => evolveN_statsLe fuel n τ s ρ⟩

/-- C9: every generated syllable is `onset ++ nucleus ++ coda` with the
nucleus a vowel of the inventory, so `genWord` always returns a non-empty
string, the fresh-word retry loop only ever returns non-empty forms, and
the birth step never creates a living word keyed by the empty string. -/
theorem C9_generated_words_nonempty :
    (∀ ρ : RandSrc, ∃ o nu co : String, (genSyllable ρ).1 = o ++ nu ++ co ∧ nu ∈ VOWELS) ∧
    (∀ ρ : RandSrc, 1 ≤ (genWord ρ).1.length) ∧
    (∀ (fuel : ℕ) (words : List (String × WordData)) (ρ : RandSrc),
      (match genFresh fuel words ρ with
       | none => true
       | some wp => decide (1 ≤ wp.1.length)) = true) ∧
    (∀ (fuel gen : ℕ) (words : List (String × WordData)) (stats : Stats) (ρ : RandSrc),
      (match birthStep fuel gen words stats ρ with
       | none => true
       | some out => decide (out.1.lookup "" = words.lookup "")) = true) :=
  ⟨genSyllable_struct, genWord_length,
   fun fuel words ρ => by
    cases h : genFresh fuel words ρ with
    | none => rfl
    | some wp => simpa using genFresh_length h,
   fun fuel gen words stats ρ => by
    cases h : birthStep fuel gen words stats ρ with
    | none => rfl
    | some out => simpa using birthStep_no_empty_key h⟩

/-- C10: fresh seeding can create fewer living words than the distinct
concepts drawn, because the seed loop inserts each generated word without a
surface-form uniqueness check; and `stats.total_generated` is set to the
size of the surviving living-words map, so the two always agree at
startup.  Under `rho10`, 2 distinct concepts are drawn but both words
collide on the form "a", leaving 1 living word and `total_generated = 1`. -/
theorem C10_seed_collision :
    (∀ ρ : RandSrc, (seedState ρ).stats.total_generated = (seedState ρ).words.length) ∧
    ((dedupFirst [] (conceptPicks 10 rho10).1).take 10).length = 2 ∧
    (seedState rho10).words.length = 1 ∧
    (seedState rho10).stats.total_generated = 1 :=
  ⟨fun _ => rfl, by decide, by decide, by decide⟩


theorem genFresh_lookup {fuel : ℕ} {words : List (String × WordData)} {ρ : RandSrc}
    {wp : String × RandSrc} (h : genFresh fuel words ρ = some wp) :
    words.lookup wp.1 = none := by
  induction fuel generalizing ρ with
  | zero => exact Option.noConfusion h
  | succ fuel ih =>
    simp only [genFresh] at h
    split at h
    · exact ih h
    · rename_i hn
      simp only [Option.some.injEq] at h
      subst h
      exact Option.not_isSome_iff_eq_none.mp hn

theorem listIdx_ne {l : List String} {m : String} (hm : ¬ m ∈ l) (hne : m ≠ "")
    (u : ℚ) : listIdx l u ≠ m := by
  unfold listIdx
  rcases hg : l.get? (Int.toNat ⌊u * (l.length : ℚ)⌋) with _ | x
  · rw [List.getD_eq_getD_get?, hg]
    exact fun he => hne he.symm
  · rw [List.getD_eq_getD_get?, hg]
    intro he
    exact hm (he ▸ List.get?_mem hg)

theorem birthStep_total_extinct {fuel gen : ℕ} {words : List (String × WordData)}
    {stats : Stats} {ρ : RandSrc}
    {out : List (String × WordData) × Stats × List Event × RandSrc}
    (h : birthStep fuel gen words stats ρ = some out) :
    out.2.1.total_extinct = stats.total_extinct := by
  simp only [birthStep] at h
  split at h
  · split at h
    · exact Option.noConfusion h
    · simp only [Option.some.injEq] at h
      subst h
      rfl
  · simp only [Option.some.injEq] at h
    subst h
    rfl

theorem shiftStep_total_extinct (gen : ℕ) (ws : List (String × WordData))
    (sh : List ShiftRec) (st : Stats) (ρ : RandSrc) :
    (shiftStep gen ws sh st ρ).2.2.1.total_extinct = st.total_extinct := by
  simp only [shiftStep]
  split
  · split
    · split
      · rfl
      · rfl
    · rfl
  · rfl

theorem compoundStep_total_extinct (gen : ℕ) (ws : List (String × WordData))
    (cs : List (String × CompoundData)) (st : Stats) (ρ : RandSrc) :
    (compoundStep gen ws cs st ρ).2.1.total_extinct = st.total_extinct := by
  simp only [compoundStep]
  split
  · split
    · split
      · rfl
      · rfl
    · rfl
  · rfl

theorem shiftStep_events_cases (gen : ℕ) (ws : List (String × WordData))
    (sh : List ShiftRec) (st : Stats) (ρ : RandSrc) :
    (shiftStep gen ws sh st ρ).2.2.2.1 = [] ∨
    ∃ a b c m, (shiftStep gen ws sh st ρ).2.2.2.1 = [Event.shift a b c m] := by
  simp only [shiftStep]
  split
  · split
    · split
      · exact Or.inr ⟨_, _, _, _, rfl⟩
      · exact Or.inl rfl
    · exact Or.inl rfl
  · exact Or.inl rfl

theorem compoundStep_events_cases (gen : ℕ) (ws : List (String × WordData))
    (cs : List (String × CompoundData)) (st : Stats) (ρ : RandSrc) :
    (compoundStep gen ws cs st ρ).2.2.1 = [] ∨
    ∃ g w m ps, (compoundStep gen ws cs st ρ).2.2.1 = [Event.compound g w m ps] := by
  simp only [compoundStep]
  split
  · split
    · split
      · exact Or.inr ⟨_, _, _, _, rfl⟩
      · exact Or.inl rfl
    · exact Or.inl rfl
  · exact Or.inl rfl

theorem shiftStep_meaning_all (m : String) (gen : ℕ) (ws : List (String × WordData))
    (sh : List ShiftRec) (st : Stats) (ρ : RandSrc)
    (h : ws.all (fun p => !(p.2.meaning == m)) = true) :
    ((shiftStep gen ws sh st ρ).1).all (fun p => !(p.2.meaning == m)) = true := by
  simp only [shiftStep]
  split
  · split
    · split
      · rename_i d hd
        refine objInsert_all (objErase_all h) ?_
        have hmem := lookup_some_mem hd
        have := List.all_eq_true.mp h _ hmem
        simpa using this
      · exact h
    · exact h
  · exact h

theorem objInsert_singleton_ne {α : Type} (k k' : String) (v d : α) (h : k' ≠ k) :
    objInsert k' v [(k, d)] = [(k, d), (k', v)] := by
  simp [objInsert, Ne.symm h]

theorem shiftStep_no_extinct_event (gen : ℕ) (ws : List (String × WordData))
    (sh : List ShiftRec) (st : Stats) (ρ : RandSrc) (g : ℕ) (w m : String) :
    Event.extinct g w m ∉ (shiftStep gen ws sh st ρ).2.2.2.1 := by
  rcases shiftStep_events_cases gen ws sh st ρ with h | ⟨a, b, c, mm, h⟩ <;> rw [h] <;> simp

theorem compoundStep_no_extinct_event (gen : ℕ) (ws : List (String × WordData))
    (cs : List (String × CompoundData)) (st : Stats) (ρ : RandSrc) (g : ℕ) (w m : String) :
    Event.extinct g w m ∉ (compoundStep gen ws cs st ρ).2.2.1 := by
  rcases compoundStep_events_cases gen ws cs st ρ with h | ⟨a, b, c, ps, h⟩ <;> rw [h] <;> simp

theorem usageStep_one (k : String) (d : WordData) (ρ : RandSrc) :
    (usageStep [(k, d)] ρ).1 = [(k, bumpWord d)] ∨
    (usageStep [(k, d)] ρ).1 = [(k, d)] := by
  simp only [usageStep, shuffleDraws, shuffleAux, bumpN, List.map_cons, List.map_nil,
    List.length_cons, List.length_nil]
  rcases Nat.eq_zero_or_pos (Int.toNat ⌊ρ 0 * ((0 + 1 : ℕ) : ℚ)⌋) with hi | hi
  · rw [hi]
    left
    simp [objModify]
  · rw [List.getD_eq_default]
    · by_cases hk : k = ""
      · subst hk
        left
        simp [objModify]
      · right
        simp [objModify, hk]
    · simp only [List.length_cons, List.length_nil]
      omega

theorem usageStep_two (k1 k2 : String) (d1 d2 : WordData) (ρ : RandSrc)
    (h21 : k2 ≠ k1) (h2e : k2 ≠ "") (h1e : k1 ≠ "") :
    (usageStep [(k1, d1), (k2, d2)] ρ).1 = [(k1, bumpWord d1), (k2, d2)] ∨
    (usageStep [(k1, d1), (k2, d2)] ρ).1 = [(k1, d1), (k2, bumpWord d2)] ∨
    (usageStep [(k1, d1), (k2, d2)] ρ).1 = [(k1, d1), (k2, d2)] := by
  simp only [usageStep, shuffleDraws, shuffleAux, bumpN, List.map_cons, List.map_nil,
    List.length_cons, List.length_nil]
  have hcases : Int.toNat ⌊ρ 0 * ((0 + 1 + 1 : ℕ) : ℚ)⌋ = 0 ∨
      Int.toNat ⌊ρ 0 * ((0 + 1 + 1 : ℕ) : ℚ)⌋ = 1 ∨
      2 ≤ Int.toNat ⌊ρ 0 * ((0 + 1 + 1 : ℕ) : ℚ)⌋ := by omega
  rcases hcases with hi | hi | hi
  · rw [hi]
    left
    simp [objModify]
  · rw [hi]
    right; left
    simp [objModify, Ne.symm h21]
  · rw [List.getD_eq_default]
    · right; right
      simp [objModify, h1e, h2e]
    · simp only [List.length_cons, List.length_nil]
      omega

/-- C2 (amended): for EVERY draw stream under which `advanceGeneration()`
completes on the scenario state (one word "ka" with fitness 0.05, uses 0,
age 1), the usage step — which always bumps `max(1, ⌊n/3⌋) ≥ 1` words —
leaves "ka" with uses either 0 or 1, and the boundary word is removed
exactly in the first case: if the usage step selected another word (uses
still 0, possible only when a birth fired), "ka" is recorded in the extinct
ring, `total_extinct` increments, an extinct event is returned, and no
living word with meaning "fire" remains; if the usage step selected "ka"
itself (uses 1), its fitness rises to 0.15, decays to 0.10, nothing is
recorded extinct, `total_extinct` stays 0, and no extinct event is
returned. -/
theorem C2_amended_extinction (fuel : ℕ) (t : String) (ρ : RandSrc) (s1 : LexState)
    (evs : List Event)
    (h : (evolveStep fuel t c2state ρ).map (fun r => (r.1, r.2.1)) = some (s1, evs)) :
    (c2UsageUses fuel ρ = some (some 0) ∨ c2UsageUses fuel ρ = some (some 1)) ∧
    (c2UsageUses fuel ρ = some (some 0) →
      s1.extinct = [⟨"ka", "fire", 0, 1, 0⟩] ∧
      s1.stats.total_extinct = 1 ∧
      Event.extinct 1 "ka" "fire" ∈ evs ∧
      s1.words.all (fun p => !(p.2.meaning == "fire")) = true) ∧
    (c2UsageUses fuel ρ = some (some 1) →
      s1.extinct = [] ∧
      s1.stats.total_extinct = 0 ∧
      Event.extinct 1 "ka" "fire" ∉ evs ∧
      c2UsageFitness fuel ρ = some (some (3/20)) ∧
      c2DecayFitness fuel ρ = some (some (1/10))) := by
  simp only [evolveStep] at h
  split at h
  · simp at h
  · rename_i bOut heq
    simp only [Option.map_some', Option.some.injEq, Prod.mk.injEq] at h
    obtain ⟨hs1, hevs⟩ := h
    subst hs1
    subst hevs
    simp only [c2UsageUses, c2UsageFitness, c2DecayFitness, heq, Option.map_some']
    simp only [compoundStep_total_extinct, shiftStep_total_extinct]
    rw [birthStep_total_extinct heq]
    simp only [show c2state.stats.total_extinct = 0 from rfl, Nat.zero_add]
    simp only [birthStep] at heq
    split at heq
    · -- birth fired
      split at heq
      · exact Option.noConfusion heq
      · rename_i wp hfresh
        simp only [Option.some.injEq] at heq
        subst heq
        have hlk := genFresh_lookup hfresh
        have hlen := genFresh_length hfresh
        have hka : wp.1 ≠ "ka" := by
          intro he
          rw [he] at hlk
          exact absurd hlk (by decide)
        have hwe : wp.1 ≠ "" := by
          intro he
          rw [he] at hlen
          exact absurd hlen (by decide)
        simp only [c2state, Nat.zero_add]
        rw [objInsert_singleton_ne "ka" wp.1 _ _ hka]
        set m : String := (if 0 < (List.filter (fun c => !(List.map (fun p => p.2.meaning)
            ([("ka", { meaning := "fire", category := "natural", born := 0, uses := 0,
                       fitness := 1/20, history := ["ka"] })] :
              List (String × WordData))).contains c) ALL_CONCEPTS).length then
          listIdx (List.filter (fun c => !(List.map (fun p => p.2.meaning)
            ([("ka", { meaning := "fire", category := "natural", born := 0, uses := 0,
                       fitness := 1/20, history := ["ka"] })] :
              List (String × WordData))).contains c) ALL_CONCEPTS)
            (rtail ρ 0)
          else listIdx ALL_CONCEPTS (rtail ρ 0)) with hCONC
        have hm : m ≠ "fire" := by
          rw [hCONC]
          rw [if_pos (by decide)]
          exact listIdx_ne (by decide) (by decide) _
        rcases usageStep_two "ka" wp.1
            ⟨"fire", "natural", 0, 0, 1/20, ["ka"]⟩
            ⟨m, CONCEPT_CATS m, 1, 0, 1/2, [wp.1]⟩ wp.2 hka hwe (by decide) with hU | hU | hU <;>
          rw [hU]
        · have hD : decayStep 1 [("ka", bumpWord ⟨"fire", "natural", 0, 0, 1/20, ["ka"]⟩),
              (wp.1, (⟨m, CONCEPT_CATS m, 1, 0, 1/2, [wp.1]⟩ : WordData))] =
              [("ka", ⟨"fire", "natural", 0, 1, 1/10, ["ka"]⟩),
               (wp.1, ⟨m, CONCEPT_CATS m, 1, 0, 1/2, [wp.1]⟩)] := by
            norm_num [decayStep, bumpWord, min_def]
          rw [hD]
          have hE : extinctionStep 1 [("ka", (⟨"fire", "natural", 0, 1, 1/10, ["ka"]⟩ : WordData)),
              (wp.1, ⟨m, CONCEPT_CATS m, 1, 0, 1/2, [wp.1]⟩)] [] =
              ([("ka", ⟨"fire", "natural", 0, 1, 1/10, ["ka"]⟩),
                (wp.1, ⟨m, CONCEPT_CATS m, 1, 0, 1/2, [wp.1]⟩)], [], [], 0) := by
            norm_num [extinctionStep]
          rw [hE]
          refine ⟨Or.inr (by simp [List.lookup, bumpWord]),
            fun hc => absurd hc (by simp [List.lookup, bumpWord]), fun _ => ?_⟩
          refine ⟨rfl, rfl, ?_, ?_, ?_⟩
          · intro hmem
            rcases List.mem_append.mp hmem with h3 | h4
            · rcases List.mem_append.mp h3 with h5 | h6
              · rcases List.mem_append.mp h5 with h7 | h8
                · simp at h7
                · simp at h8
              · exact shiftStep_no_extinct_event _ _ _ _ _ _ _ _ h6
            · exact compoundStep_no_extinct_event _ _ _ _ _ _ _ _ h4
          · simp only [List.lookup, bumpWord]
            norm_num [min_def]
          · simp [List.lookup]
        · have hD : decayStep 1 [("ka", (⟨"fire", "natural", 0, 0, 1/20, ["ka"]⟩ : WordData)),
              (wp.1, bumpWord ⟨m, CONCEPT_CATS m, 1, 0, 1/2, [wp.1]⟩)] =
              [("ka", ⟨"fire", "natural", 0, 0, 0, ["ka"]⟩),
               (wp.1, ⟨m, CONCEPT_CATS m, 1, 1, 3/5, [wp.1]⟩)] := by
            norm_num [decayStep, bumpWord, min_def]
          rw [hD]
          have hE : extinctionStep 1 [("ka", (⟨"fire", "natural", 0, 0, 0, ["ka"]⟩ : WordData)),
              (wp.1, ⟨m, CONCEPT_CATS m, 1, 1, 3/5, [wp.1]⟩)] [] =
              ([(wp.1, ⟨m, CONCEPT_CATS m, 1, 1, 3/5, [wp.1]⟩)],
               [⟨"ka", "fire", 0, 1, 0⟩], [Event.extinct 1 "ka" "fire"], 1) := by
            norm_num [extinctionStep, pushTrim]
          rw [hE]
          refine ⟨Or.inl (by simp [List.lookup]),
            fun _ => ?_, fun hc => absurd hc (by simp [List.lookup])⟩
          refine ⟨rfl, rfl, ?_, ?_⟩
          · exact List.mem_append_left _ (List.mem_append_left _
              (List.mem_append_right _ (by simp)))
          · refine shiftStep_meaning_all _ _ _ _ _ _ ?_
            simp [hm]
        · have hD : decayStep 1 [("ka", (⟨"fire", "natural", 0, 0, 1/20, ["ka"]⟩ : WordData)),
              (wp.1, (⟨m, CONCEPT_CATS m, 1, 0, 1/2, [wp.1]⟩ : WordData))] =
              [("ka", ⟨"fire", "natural", 0, 0, 0, ["ka"]⟩),
               (wp.1, ⟨m, CONCEPT_CATS m, 1, 0, 1/2, [wp.1]⟩)] := by
            norm_num [decayStep]
          rw [hD]
          have hE : extinctionStep 1 [("ka", (⟨"fire", "natural", 0, 0, 0, ["ka"]⟩ : WordData)),
              (wp.1, ⟨m, CONCEPT_CATS m, 1, 0, 1/2, [wp.1]⟩)] [] =
              ([(wp.1, ⟨m, CONCEPT_CATS m, 1, 0, 1/2, [wp.1]⟩)],
               [⟨"ka", "fire", 0, 1, 0⟩], [Event.extinct 1 "ka" "fire"], 1) := by
            norm_num [extinctionStep, pushTrim]
          rw [hE]
          refine ⟨Or.inl (by simp [List.lookup]),
            fun _ => ?_, fun hc => absurd hc (by simp [List.lookup])⟩
          refine ⟨rfl, rfl, ?_, ?_⟩
          · exact List.mem_append_left _ (List.mem_append_left _
              (List.mem_append_right _ (by simp)))
          · refine shiftStep_meaning_all _ _ _ _ _ _ ?_
            simp [hm]
    · -- no birth
      simp only [Option.some.injEq] at heq
      subst heq
      simp only [c2state, Nat.zero_add]
      rcases usageStep_one "ka" ⟨"fire", "natural", 0, 0, 1/20, ["ka"]⟩ (rtail ρ) with hU | hU <;>
        rw [hU]
      · refine ⟨Or.inr (by decide), fun hc => absurd hc (by decide), fun _ => ?_⟩
        refine ⟨by decide, by decide, ?_, by decide, by decide⟩
        intro hmem
        rcases List.mem_append.mp hmem with h3 | h4
        · rcases List.mem_append.mp h3 with h5 | h6
          · rcases List.mem_append.mp h5 with h7 | h8
            · exact absurd h7 (by simp)
            · exact absurd h8 (by decide)
          · exact shiftStep_no_extinct_event _ _ _ _ _ _ _ _ h6
        · exact compoundStep_no_extinct_event _ _ _ _ _ _ _ _ h4
      · refine ⟨Or.inl (by decide), fun _ => ?_, fun hc => absurd hc (by decide)⟩
        refine ⟨by decide, by decide, ?_, ?_⟩
        · exact List.mem_append_left _ (List.mem_append_left _
            (List.mem_append_right _ (by decide)))
        · exact shiftStep_meaning_all _ _ _ _ _ _ (by decide)

/-- Witness for `C2_amended_extinction` at the concrete draw stream
`rho2b`, discharging both the completed-call hypothesis and the
usage-missed-the-word hypothesis by evaluation. -/
theorem C2_witness :
    c2resState.extinct = [⟨"ka", "fire", 0, 1, 0⟩] ∧
    c2resState.stats.total_extinct = 1 ∧
    Event.extinct 1 "ka" "fire" ∈ c2resEvents ∧
    c2resState.words.all (fun p => !(p.2.meaning == "fire")) = true :=
  (C2_amended_extinction 1 "t" rho2b c2resState c2resEvents (by decide)).2.1 (by decide)
